import Mathlib

/-!
Shallow embedding of `src/kicad_qr_inserter.py`.

Modelling conventions:
* The board library's internal coordinate unit (nanometres) is modelled
  exactly as a rational number; `ToMM` and `FromMM` are the exact unit
  conversions by a factor of 10^6 (the spec treats the unit conversion of
  the external library as an implementation detail of the conversion layer).
* A board is the list of its drawables, in iteration order; `board.Add`
  appends, `DeleteStructure` removes the drawable from the list.
* A PIL bitmap is its list of pixel rows; pixel value 0 is black/on
  (the QR library renders black modules as 0), any other value is off.
  `Image.FLIP_LEFT_RIGHT` reverses every row.
* Printing and file I/O are modelled by the data they would carry:
  `find_text_warns` records whether the non-square warning is printed,
  `mainRepeat` records the list of boards passed to `SaveBoard` and the
  process exit status.
-/

namespace KQR

/-- Conversion from internal units to millimetres (`pcbnew.ToMM`). -/
def ToMM (v : ℚ) : ℚ := v / 1000000

/-- Conversion from millimetres to internal units (`pcbnew.FromMM`). -/
def FromMM (v : ℚ) : ℚ := v * 1000000

/-- A `pcbnew.PCB_TEXTBOX`: text content, position (GetPosition), end corner
(GetEndX/GetEndY), layer (GetLayer).  Coordinates are in internal units. -/
structure PCB_TEXTBOX where
  text : String
  posX : ℚ
  posY : ℚ
  endX : ℚ
  endY : ℚ
  layer : Int
deriving DecidableEq

/-- A `pcbnew.PCB_SHAPE` rectangle as built by `insert_qr_to_pcb`:
start/end corners (internal units), layer, stroke width, fill flag. -/
structure PCB_SHAPE where
  startX : ℚ
  startY : ℚ
  endX : ℚ
  endY : ℚ
  layer : Int
  strokeWidth : ℚ
  filled : Bool
deriving DecidableEq

/-- A drawable of the board, as relevant to this program: either a textbox
(the marker kind matched by `find_text_location`) or a plain shape. -/
inductive Drawable where
  | textbox : PCB_TEXTBOX → Drawable
  | shape : PCB_SHAPE → Drawable
deriving DecidableEq

/-- A board is its list of drawables (`board.GetDrawings()` order). -/
abbrev Board := List Drawable

/-- Does a drawable match the identifier the way the locator's test does:
it is a `PCB_TEXTBOX` and its text equals the identifier exactly. -/
def matchesId (tid : String) : Drawable → Bool
  | Drawable.textbox t => t.text == tid
  | Drawable.shape _ => false

/-- Number of drawables of the board matching the identifier. -/
def countMatches (tid : String) (b : Board) : Nat :=
  (b.filter (matchesId tid)).length

/-- Embedding of `find_text_location(board, text_identifier)`.

Scans the drawings in order; on the first textbox whose text equals the
identifier it converts the corners to millimetres, deletes the drawable,
and returns `((x + end_x)/2, (y + end_y)/2, (end_x - x + end_y - y)/2, layer)`.
Returns the optional result together with the board after the side effect. -/
def find_text_location (tid : String) : Board → Option (ℚ × ℚ × ℚ × Int) × Board
  | [] => (none, [])
  | Drawable.shape s :: rest =>
      let r := find_text_location tid rest
      (r.1, Drawable.shape s :: r.2)
  | Drawable.textbox t :: rest =>
      if t.text == tid then
        let x := ToMM t.posX
        let y := ToMM t.posY
        let ex := ToMM t.endX
        let ey := ToMM t.endY
        (some ((x + ex) / 2, (y + ey) / 2, (ex - x + ey - y) / 2, t.layer), rest)
      else
        let r := find_text_location tid rest
        (r.1, Drawable.textbox t :: r.2)

/-- Whether the call to `find_text_location` prints the warning
`Warning! Textbox height != width`: the first matching textbox has
`end_x - x != end_y - y` after conversion to millimetres. -/
def find_text_warns (tid : String) : Board → Bool
  | [] => false
  | Drawable.shape _ :: rest => find_text_warns tid rest
  | Drawable.textbox t :: rest =>
      if t.text == tid then
        ToMM t.endX - ToMM t.posX != ToMM t.endY - ToMM t.posY
      else
        find_text_warns tid rest

/-- Layer identifiers of `pcbnew` (KiCad layer ids, fixed library constants). -/
def F_Cu : Int := 0

def B_Cu : Int := 31

def B_Adhes : Int := 32

def F_Adhes : Int := 33

def B_Paste : Int := 34

def F_Paste : Int := 35

def B_SilkS : Int := 36

def F_SilkS : Int := 37

def B_Mask : Int := 38

def F_Mask : Int := 39

def B_CrtYd : Int := 46

def F_CrtYd : Int := 47

def B_Fab : Int := 48

def F_Fab : Int := 49

/-- The fixed constant list `backside_layers` of `is_backside_layer`. -/
def backside_layers : List Int :=
  [B_Cu, B_Adhes, B_Paste, B_SilkS, B_Mask, B_Fab, B_CrtYd]

/-- Embedding of `is_backside_layer(layer)`: membership in the fixed set. -/
def is_backside_layer (layer : Int) : Bool :=
  backside_layers.contains layer

/-- A QR bitmap (PIL image): the list of pixel rows; value 0 is black. -/
structure QRImage where
  pixels : List (List Nat)
deriving DecidableEq

/-- Width of the image (length of a row; PIL images are rectangular). -/
def QRImage.width (img : QRImage) : Nat := (img.pixels.headD []).length

/-- Height of the image (number of rows). -/
def QRImage.height (img : QRImage) : Nat := img.pixels.length

/-- Embedding of `img.transpose(Image.FLIP_LEFT_RIGHT)`: reverse each row. -/
def QRImage.flipLR (img : QRImage) : QRImage := ⟨img.pixels.map List.reverse⟩

/-- Well-formedness of a bitmap: every row has the image's width.
PIL images are rectangular by construction. -/
def QRImage.WF (img : QRImage) : Prop :=
  ∀ r ∈ img.pixels, r.length = img.width

/-- Pixel access `pixels[x, y]`; out-of-range reads default to 255 (white). -/
def pixelAt (img : QRImage) (x y : Nat) : Nat :=
  (img.pixels.getD y []).getD x 255

/-- Number of black (on) pixels of the bitmap. -/
def countBlack (img : QRImage) : Nat :=
  (img.pixels.map (fun r => r.count 0)).sum

/-- The rectangle `insert_qr_to_pcb` builds for the black pixel at grid
position `(x, y)`: filled, zero stroke width, on the given layer, spanning
`FromMM (start_x + x*pixel_size) .. FromMM (start_x + (x+1)*pixel_size)`
and likewise vertically. -/
def mkRect (sx sy ps : ℚ) (layer : Int) (x y : Nat) : PCB_SHAPE :=
  { startX := FromMM (sx + (x : ℚ) * ps)
    startY := FromMM (sy + (y : ℚ) * ps)
    endX := FromMM (sx + ((x : ℚ) + 1) * ps)
    endY := FromMM (sy + ((y : ℚ) + 1) * ps)
    layer := layer
    strokeWidth := FromMM 0
    filled := true }

/-- The nested pixel loop of `insert_qr_to_pcb`: for each row `y` and column
`x` in range, if the pixel is black, a rectangle is added.  Returns the list
of shapes added, in loop order. -/
def renderPixels (img : QRImage) (sx sy ps : ℚ) (layer : Int) : List Drawable :=
  (List.range img.height).flatMap fun y =>
    ((List.range img.width).filter fun x => pixelAt img x y == 0).map fun x =>
      Drawable.shape (mkRect sx sy ps layer x y)

/-- Embedding of `insert_qr_to_pcb(qr_image, board, start_x, start_y,
pixel_size, layer)`: flips the bitmap left-right when the layer is a
backside layer, then appends one rectangle per black pixel to the board. -/
def insert_qr_to_pcb (img : QRImage) (board : Board) (sx sy ps : ℚ) (layer : Int) : Board :=
  board ++
    renderPixels (if is_backside_layer layer then img.flipLR else img) sx sy ps layer

/-- If no drawable of the board matches the identifier, the locator scan
returns `none` and rebuilds the board unchanged. -/
theorem find_eq_none_of_no_match (tid : String) (b : Board)
    (h : ∀ d ∈ b, matchesId tid d = false) :
    find_text_location tid b = (none, b) := by
  induction b with
  | nil => rfl
  | cons d rest ih =>
    have hrest : ∀ d ∈ rest, matchesId tid d = false := by
      intro d hd
      exact h d (List.mem_cons_of_mem _ hd)
    cases d with
    | shape s =>
      simp [find_text_location, ih hrest]
    | textbox t =>
      have ht : (t.text == tid) = false := by
        have := h (Drawable.textbox t) (List.mem_cons_self _ _)
        simpa [matchesId] using this
      simp [find_text_location, ht, ih hrest]

/-- If the locator scan comes back empty, the board had no match. -/
theorem count_eq_zero_of_find_none (tid : String) (b : Board)
    (h : (find_text_location tid b).1 = none) :
    countMatches tid b = 0 := by
  induction b with
  | nil => rfl
  | cons d rest ih =>
    cases d with
    | shape s =>
      simp only [find_text_location] at h
      simpa [countMatches, matchesId] using ih h
    | textbox t =>
      by_cases ht : (t.text == tid) = true
      · simp [find_text_location, ht] at h
      · simp only [Bool.not_eq_true] at ht
        simp only [find_text_location, ht, Bool.false_eq_true, if_false] at h
        have := ih h
        simpa [countMatches, matchesId, ht] using this

/-- A successful locator call removes exactly one matching drawable: the
match count of the returned board is one less than that of the input. -/
theorem count_of_find_some (tid : String) (b : Board) (loc : ℚ × ℚ × ℚ × Int)
    (b2 : Board) (h : find_text_location tid b = (some loc, b2)) :
    countMatches tid b = countMatches tid b2 + 1 := by
  induction b generalizing b2 with
  | nil => simp [find_text_location] at h
  | cons d rest ih =>
    cases d with
    | shape s =>
      rcases hfr : find_text_location tid rest with ⟨o, br⟩
      simp only [find_text_location, hfr, Prod.mk.injEq] at h
      obtain ⟨h1, h2⟩ := h
      subst h1
      subst h2
      have := ih br hfr
      simpa [countMatches, matchesId] using this
    | textbox t =>
      by_cases ht : (t.text == tid) = true
      · simp only [find_text_location, ht, if_true, Prod.mk.injEq] at h
        obtain ⟨_, h2⟩ := h
        subst h2
        simp [countMatches, matchesId, ht]
      · rcases hfr : find_text_location tid rest with ⟨o, br⟩
        simp only [Bool.not_eq_true] at ht
        simp only [find_text_location, ht, Bool.false_eq_true, if_false, hfr,
          Prod.mk.injEq] at h
        obtain ⟨h1, h2⟩ := h
        subst h1
        subst h2
        have := ih br hfr
        simpa [countMatches, matchesId, ht] using this

/-- Every drawable produced by the pixel loop is a plain shape, so none of
them matches any identifier. -/
theorem renderPixels_filter_eq_nil (tid : String) (img : QRImage)
    (sx sy ps : ℚ) (layer : Int) :
    (renderPixels img sx sy ps layer).filter (matchesId tid) = [] := by
  rw [List.filter_eq_nil_iff]
  intro d hd
  simp only [renderPixels, List.mem_flatMap, List.mem_map, List.mem_filter] at hd
  obtain ⟨y, _, x, _, hx⟩ := hd
  subst hx
  simp [matchesId]

/-- Rendering a bitmap adds no matching drawable: the match count of the
board is unchanged by `insert_qr_to_pcb`. -/
theorem count_insert_qr (tid : String) (img : QRImage) (b : Board)
    (sx sy ps : ℚ) (layer : Int) :
    countMatches tid (insert_qr_to_pcb img b sx sy ps layer) =
      countMatches tid b := by
  simp [insert_qr_to_pcb, countMatches, List.filter_append,
    renderPixels_filter_eq_nil]

/-- Embedding of the replacement loop of the effective `main` (the second
definition, which shadows the first): repeatedly locate a marker; on a hit
compute `pixel_size = width / qr_image.width`, render the QR bitmap centred
on the marker, and count the replacement; stop on a miss.  Returns the final
board and the replacement count. -/
def replaceLoop (tid : String) (qr : QRImage) (b : Board) : Board × Nat :=
  match h : find_text_location tid b with
  | (none, b2) => (b2, 0)
  | (some (x, y, w, layer), b2) =>
      let r := replaceLoop tid qr (insert_qr_to_pcb qr b2
        (x - (qr.width : ℚ) / 2 * (w / (qr.width : ℚ)))
        (y - (qr.width : ℚ) / 2 * (w / (qr.width : ℚ)))
        (w / (qr.width : ℚ)) layer)
      (r.1, r.2 + 1)
termination_by countMatches tid b
decreasing_by
  have hc := count_of_find_some tid b _ _ h
  simp only [count_insert_qr]
  omega

/-- The loop makes exactly one replacement per matching drawable present in
the input board. -/
theorem replaceLoop_count (tid : String) (qr : QRImage) (b : Board) :
    (replaceLoop tid qr b).2 = countMatches tid b := by
  induction b using replaceLoop.induct tid qr with
  | case1 b b2 h =>
    have hz := count_eq_zero_of_find_none tid b (by rw [h])
    rw [replaceLoop.eq_def]
    split
    · next b2' heq => simp [hz]
    · next x y w layer b2' heq =>
      rw [h] at heq
      simp at heq
  | case2 b x y w layer b2 h ih =>
    have hc := count_of_find_some tid b _ _ h
    rw [replaceLoop.eq_def]
    split
    · next b2' heq =>
      rw [h] at heq
      simp at heq
    · next x' y' w' layer' b2' heq =>
      rw [h] at heq
      simp only [Prod.mk.injEq, Option.some.injEq] at heq
      obtain ⟨⟨hx, hy, hw, hl⟩, hb⟩ := heq
      subst hx
      subst hy
      subst hw
      subst hl
      subst hb
      simp only []
      rw [ih, count_insert_qr]
      omega

/-- Outcome of one run of the effective (repeat-replacement) `main`:
the boards passed to `pcbnew.SaveBoard` in order, the final in-memory
board, the replacement count, and the process exit status. -/
structure RunResult where
  saves : List Board
  finalBoard : Board
  count : Nat
  exitCode : Nat
deriving DecidableEq

/-- Embedding of the effective `main`: run the replacement loop, then save
the board once, then exit with status 1 when no replacement was made
(`sys.exit(1)`; the unqualified `sys` raises `NameError`, which also
terminates the process with status 1) and status 0 otherwise. -/
def mainRepeat (tid : String) (qr : QRImage) (b : Board) : RunResult :=
  let r := replaceLoop tid qr b
  { saves := [r.1]
    finalBoard := r.1
    count := r.2
    exitCode := if r.2 = 0 then 1 else 0 }

/-- Example identifier used by concrete witnesses. -/
def exId : String := "QR"

/-- Example second identifier (never matched by the witnesses). -/
def exOtherId : String := "SN"

/-- Example marker: a square textbox from (40 mm, 40 mm) to (50 mm, 50 mm)
on the front silkscreen layer, carrying the example identifier. -/
def exTb : PCB_TEXTBOX :=
  { text := exId, posX := 40000000, posY := 40000000,
    endX := 50000000, endY := 50000000, layer := F_SilkS }

/-- Example non-square marker: 2 mm wide, 1 mm tall, on front copper. -/
def exTbNS : PCB_TEXTBOX :=
  { text := exId, posX := 0, posY := 0,
    endX := 2000000, endY := 1000000, layer := F_Cu }

/-- Example textbox whose text does not match the example identifier. -/
def exOther : PCB_TEXTBOX :=
  { text := exOtherId, posX := 0, posY := 0,
    endX := 1000000, endY := 1000000, layer := F_SilkS }

/-- Example plain shape drawable. -/
def exSh : PCB_SHAPE :=
  { startX := 0, startY := 0, endX := 1000000, endY := 1000000,
    layer := F_Cu, strokeWidth := 0, filled := true }

/-- Scanning a board whose prefix has no match returns the first matching
textbox's data, in the exact form the code computes, and deletes it. -/
theorem find_split (tid : String) (pre post : Board) (t : PCB_TEXTBOX)
    (hpre : ∀ d ∈ pre, matchesId tid d = false)
    (ht : (t.text == tid) = true) :
    find_text_location tid (pre ++ Drawable.textbox t :: post) =
      (some ((ToMM t.posX + ToMM t.endX) / 2,
             (ToMM t.posY + ToMM t.endY) / 2,
             (ToMM t.endX - ToMM t.posX + ToMM t.endY - ToMM t.posY) / 2,
             t.layer),
       pre ++ post) := by
  induction pre with
  | nil =>
    simp [find_text_location, ht]
  | cons d rest ih =>
    have hd := hpre d (List.mem_cons_self _ _)
    have hrest : ∀ d ∈ rest, matchesId tid d = false := by
      intro d hdm
      exact hpre d (List.mem_cons_of_mem _ hdm)
    cases d with
    | shape s =>
      simp [find_text_location, ih hrest]
    | textbox t2 =>
      have ht2 : (t2.text == tid) = false := by simpa [matchesId] using hd
      simp [find_text_location, ht2, ih hrest]

/-- The warning flag of a locator call that hits a matching textbox after a
prefix of non-matching drawables is decided by that textbox's geometry. -/
theorem warns_split (tid : String) (pre post : Board) (t : PCB_TEXTBOX)
    (hpre : ∀ d ∈ pre, matchesId tid d = false)
    (ht : (t.text == tid) = true) :
    find_text_warns tid (pre ++ Drawable.textbox t :: post) =
      (ToMM t.endX - ToMM t.posX != ToMM t.endY - ToMM t.posY) := by
  induction pre with
  | nil =>
    simp [find_text_warns, ht]
  | cons d rest ih =>
    have hd := hpre d (List.mem_cons_self _ _)
    have hrest : ∀ d ∈ rest, matchesId tid d = false := by
      intro d hdm
      exact hpre d (List.mem_cons_of_mem _ hdm)
    cases d with
    | shape s =>
      simp [find_text_warns, ih hrest]
    | textbox t2 =>
      have ht2 : (t2.text == tid) = false := by simpa [matchesId] using hd
      simp [find_text_warns, ht2, ih hrest]

/-- Claim C1: when the locator finds a drawable whose text equals the
identifier, it returns the center as the midpoint of the drawable's bounding
box converted from internal units to millimetres, the size as the average of
the box's width and height, and the drawable's layer, and it deletes the
matched drawable from the board before returning. -/
theorem C1_find_text_location_match (tid : String) (pre post : Board)
    (t : PCB_TEXTBOX)
    (hpre : ∀ d ∈ pre, matchesId tid d = false)
    (ht : t.text = tid) :
    find_text_location tid (pre ++ Drawable.textbox t :: post) =
      (some ((ToMM t.posX + ToMM t.endX) / 2,
             (ToMM t.posY + ToMM t.endY) / 2,
             ((ToMM t.endX - ToMM t.posX) + (ToMM t.endY - ToMM t.posY)) / 2,
             t.layer),
       pre ++ post) := by
  have h := find_split tid pre post t hpre (by simp [ht])
  rw [h]
  ring_nf

/-- Witness for C1: a 10 mm square textbox centred at (45 mm, 45 mm) on the
front silkscreen layer is located, measured and deleted. -/
theorem C1_witness :
    find_text_location exId [Drawable.textbox exTb] =
      (some (45, 45, 10, 37), []) := by
  have h := C1_find_text_location_match exId [] [] exTb (by simp) rfl
  simp only [List.nil_append] at h
  rw [h]
  norm_num [exTb, ToMM, F_SilkS]

/-- Claim C6: on a board with zero drawables matching the identifier, the
locator returns none and leaves the board completely unchanged. -/
theorem C6_find_none_unchanged (tid : String) (b : Board)
    (h : countMatches tid b = 0) :
    find_text_location tid b = (none, b) := by
  apply find_eq_none_of_no_match
  intro d hd
  by_contra hmatch
  have hmem : d ∈ b.filter (matchesId tid) := by
    rw [List.mem_filter]
    exact ⟨hd, by simpa using hmatch⟩
  have : b.filter (matchesId tid) = [] := List.length_eq_zero.mp h
  rw [this] at hmem
  simp at hmem

/-- Witness for C6: a board holding a differently-labelled textbox and a
shape is scanned without effect. -/
theorem C6_witness :
    find_text_location exId [Drawable.textbox exOther, Drawable.shape exSh] =
      (none, [Drawable.textbox exOther, Drawable.shape exSh]) :=
  C6_find_none_unchanged exId _ (by decide)

/-- Claim C9: a matched marker whose bounding box width differs from its
height makes the locator emit the warning, and the locator still returns the
result computed with the averaged size; it never fails. -/
theorem C9_nonsquare_warn (tid : String) (pre post : Board) (t : PCB_TEXTBOX)
    (hpre : ∀ d ∈ pre, matchesId tid d = false)
    (ht : t.text = tid)
    (hns : ToMM t.endX - ToMM t.posX ≠ ToMM t.endY - ToMM t.posY) :
    find_text_warns tid (pre ++ Drawable.textbox t :: post) = true ∧
    find_text_location tid (pre ++ Drawable.textbox t :: post) =
      (some ((ToMM t.posX + ToMM t.endX) / 2,
             (ToMM t.posY + ToMM t.endY) / 2,
             ((ToMM t.endX - ToMM t.posX) + (ToMM t.endY - ToMM t.posY)) / 2,
             t.layer),
       pre ++ post) := by
  constructor
  · rw [warns_split tid pre post t hpre (by simp [ht])]
    simpa using hns
  · have h := find_split tid pre post t hpre (by simp [ht])
    rw [h]
    ring_nf

/-- Witness for C9: a 2 mm by 1 mm textbox triggers the warning and is still
replaced, with size reported as the 1.5 mm average. -/
theorem C9_witness :
    find_text_warns exId [Drawable.textbox exTbNS] = true ∧
    find_text_location exId [Drawable.textbox exTbNS] =
      (some (1, 1 / 2, 3 / 2, 0), []) := by
  have h := C9_nonsquare_warn exId [] [] exTbNS (by simp) rfl
    (by norm_num [exTbNS, ToMM])
  simp only [List.nil_append] at h
  refine ⟨h.1, ?_⟩
  rw [h.2]
  norm_num [exTbNS, ToMM, F_Cu]

/-- Example 2 by 2 bitmap: black pixels on the main diagonal. -/
def exImg : QRImage := ⟨[[0, 255], [255, 0]]⟩

/-- Reading every index of a list back in order reconstructs the list. -/
theorem map_getD_range {α : Type _} (l : List α) (d : α) :
    (List.range l.length).map (fun i => l.getD i d) = l := by
  induction l with
  | nil => rfl
  | cons a t ih =>
    rw [List.length_cons, List.range_succ_eq_map, List.map_cons, List.map_map]
    simp only [List.getD_cons_zero, Function.comp_def, List.getD_cons_succ]
    rw [ih]

/-- The column loop keeps exactly as many indices as the row has zeros. -/
theorem filter_black_length (row : List Nat) :
    ((List.range row.length).filter fun x => row.getD x 255 == 0).length =
      row.count 0 := by
  rw [List.count_eq_countP, ← List.countP_eq_length_filter]
  conv_rhs => rw [← map_getD_range row 255]
  rw [List.countP_map]
  rfl

/-- The pixel loop emits exactly one shape per black pixel of its bitmap. -/
theorem renderPixels_length (img : QRImage) (sx sy ps : ℚ) (layer : Int)
    (h : img.WF) :
    (renderPixels img sx sy ps layer).length = countBlack img := by
  unfold renderPixels countBlack QRImage.height
  rw [List.length_flatMap]
  conv_rhs => rw [← map_getD_range img.pixels [], List.map_map]
  congr 1
  apply List.map_congr_left
  intro y hy
  rw [List.mem_range] at hy
  simp only [Function.comp_def, List.length_map]
  have hrow : (img.pixels.getD y []).length = img.width := by
    rw [List.getD_eq_getElem _ _ hy]
    exact h _ (List.getElem_mem hy)
  rw [← hrow]
  simpa [pixelAt] using filter_black_length (img.pixels.getD y [])

/-- Flipping a bitmap left-right preserves its width. -/
theorem flipLR_width (img : QRImage) : img.flipLR.width = img.width := by
  unfold QRImage.flipLR QRImage.width
  cases img.pixels with
  | nil => rfl
  | cons r t => simp

/-- Flipping a bitmap left-right preserves its height. -/
theorem flipLR_height (img : QRImage) : img.flipLR.height = img.height := by
  simp [QRImage.flipLR, QRImage.height]

/-- Flipping a bitmap left-right preserves rectangularity. -/
theorem flipLR_WF (img : QRImage) (h : img.WF) : img.flipLR.WF := by
  intro r hr
  rw [flipLR_width]
  simp only [QRImage.flipLR, List.mem_map] at hr
  obtain ⟨r0, hr0, rfl⟩ := hr
  simpa using h r0 hr0

/-- Claim C2: the render operation adds exactly one rectangle per black
pixel of the (possibly mirrored) bitmap and nothing for white pixels: the
board grows by exactly the number of on pixels. -/
theorem C2_insert_count (img : QRImage) (b : Board) (sx sy ps : ℚ)
    (layer : Int) (hwf : img.WF) :
    (insert_qr_to_pcb img b sx sy ps layer).length =
      b.length +
        countBlack (if is_backside_layer layer then img.flipLR else img) := by
  unfold insert_qr_to_pcb
  rw [List.length_append]
  congr 1
  by_cases hb : is_backside_layer layer = true
  · simp only [hb, if_true]
    exact renderPixels_length _ sx sy ps layer (flipLR_WF img hwf)
  · simp only [Bool.not_eq_true] at hb
    simp only [hb, Bool.false_eq_true, if_false]
    exact renderPixels_length _ sx sy ps layer hwf

/-- Witness for C2: rendering the 2 by 2 example bitmap with two black
pixels onto a one-drawable board yields three drawables. -/
theorem C2_witness :
    (insert_qr_to_pcb exImg [Drawable.shape exSh] 0 0 1 F_Cu).length = 1 + 2 := by
  have h := C2_insert_count exImg [Drawable.shape exSh] 0 0 1 F_Cu
    (by unfold QRImage.WF; decide)
  rw [h]
  decide

/-- Claim C3: every black pixel at grid position (col, row) of the bitmap
being rendered contributes a filled, zero-stroke-width rectangle on the
given layer spanning `(start_x + col*ps, start_y + row*ps)` to
`(start_x + (col+1)*ps, start_y + (row+1)*ps)` in millimetres. -/
theorem C3_black_pixel_rect (img : QRImage) (sx sy ps : ℚ) (layer : Int)
    (x y : Nat) (hx : x < img.width) (hy : y < img.height)
    (hpx : pixelAt img x y = 0) :
    Drawable.shape
      { startX := FromMM (sx + (x : ℚ) * ps)
        startY := FromMM (sy + (y : ℚ) * ps)
        endX := FromMM (sx + ((x : ℚ) + 1) * ps)
        endY := FromMM (sy + ((y : ℚ) + 1) * ps)
        layer := layer
        strokeWidth := 0
        filled := true } ∈ renderPixels img sx sy ps layer := by
  simp only [renderPixels, List.mem_flatMap, List.mem_map, List.mem_filter,
    List.mem_range]
  refine ⟨y, hy, x, ⟨hx, by simp [hpx]⟩, ?_⟩
  unfold mkRect
  norm_num [FromMM]

/-- Witness for C3: the black pixel at (0, 0) of the example bitmap yields
the unit rectangle at the render origin. -/
theorem C3_witness :
    Drawable.shape
      { startX := 0, startY := 0, endX := 1000000, endY := 1000000,
        layer := F_Cu, strokeWidth := 0, filled := true } ∈
      renderPixels exImg 0 0 1 F_Cu := by
  have h := C3_black_pixel_rect exImg 0 0 1 F_Cu 0 0 (by decide) (by decide)
    (by decide)
  norm_num [FromMM] at h
  exact h

/-- A board with no matching drawable makes the locator return none with
the board unchanged (match-count form). -/
theorem find_none_of_count_zero (tid : String) (b : Board)
    (h : countMatches tid b = 0) :
    find_text_location tid b = (none, b) := by
  apply find_eq_none_of_no_match
  intro d hd
  by_contra hmatch
  have hmem : d ∈ b.filter (matchesId tid) := by
    rw [List.mem_filter]
    exact ⟨hd, by simpa using hmatch⟩
  have hnil : b.filter (matchesId tid) = [] := List.length_eq_zero.mp h
  rw [hnil] at hmem
  simp at hmem

/-- On a matchless board the replacement loop stops at once, returning the
board unchanged and a zero count. -/
theorem replaceLoop_of_no_match (tid : String) (qr : QRImage) (b : Board)
    (h : countMatches tid b = 0) :
    replaceLoop tid qr b = (b, 0) := by
  have hf := find_none_of_count_zero tid b h
  rw [replaceLoop.eq_def]
  split
  · next b2 heq =>
    rw [hf] at heq
    simp only [Prod.mk.injEq] at heq
    rw [heq.2]
  · next x y w layer b2 heq =>
    rw [hf] at heq
    simp at heq

/-- Claim C7: the effective entry point exits with status 0 when at least
one replacement was made and with status 1 when no marker matching the
identifier is found. -/
theorem C7_exit_status (tid : String) (qr : QRImage) (b : Board) :
    (0 < countMatches tid b → (mainRepeat tid qr b).exitCode = 0) ∧
    (countMatches tid b = 0 → (mainRepeat tid qr b).exitCode = 1) := by
  have hc : (mainRepeat tid qr b).exitCode
      = if (replaceLoop tid qr b).2 = 0 then 1 else 0 := rfl
  rw [replaceLoop_count] at hc
  constructor
  · intro h
    rw [hc, if_neg (by omega)]
  · intro h
    rw [hc, if_pos h]

/-- Witness for C7: a board carrying the marker exits 0, an empty board
exits 1. -/
theorem C7_witness :
    (mainRepeat exId exImg [Drawable.textbox exTb]).exitCode = 0 ∧
    (mainRepeat exId exImg ([] : Board)).exitCode = 1 := by
  constructor
  · exact (C7_exit_status exId exImg [Drawable.textbox exTb]).1 (by decide)
  · exact (C7_exit_status exId exImg ([] : Board)).2 (by decide)

/-- Claim C8: in repeat-replacement mode the save operation is invoked
exactly once, on the board produced after the replacement loop has finished
all insertions, and a save still happens when zero replacements were made
(the board is then saved unchanged). -/
theorem C8_save_once (tid : String) (qr : QRImage) (b : Board) :
    (mainRepeat tid qr b).saves = [(replaceLoop tid qr b).1] ∧
    (mainRepeat tid qr b).saves.length = 1 ∧
    (countMatches tid b = 0 →
      (mainRepeat tid qr b).saves = [b] ∧ (mainRepeat tid qr b).count = 0) := by
  refine ⟨rfl, rfl, ?_⟩
  intro h
  have hz := replaceLoop_of_no_match tid qr b h
  constructor
  · show [(replaceLoop tid qr b).1] = [b]
    rw [hz]
  · show (replaceLoop tid qr b).2 = 0
    rw [hz]

/-- Witness for C8: a board holding only a plain shape is saved once,
unchanged, with zero replacements. -/
theorem C8_witness :
    (mainRepeat exId exImg [Drawable.shape exSh]).saves =
      [[Drawable.shape exSh]] ∧
    (mainRepeat exId exImg [Drawable.shape exSh]).count = 0 :=
  (C8_save_once exId exImg [Drawable.shape exSh]).2.2 (by decide)

/-- Claim C10: each loop iteration that finds a match deletes exactly one
matching textbox, rendering adds only plain shapes so the match count is
unchanged by insertion, hence the count strictly decreases per iteration and
the loop terminates after exactly one replacement per initial match. -/
theorem C10_loop_terminates (tid : String) (qr : QRImage) (b b2 : Board)
    (loc : ℚ × ℚ × ℚ × Int) (sx sy ps : ℚ) (layer : Int)
    (h : find_text_location tid b = (some loc, b2)) :
    countMatches tid b2 + 1 = countMatches tid b ∧
    countMatches tid (insert_qr_to_pcb qr b2 sx sy ps layer) =
      countMatches tid b2 ∧
    countMatches tid (insert_qr_to_pcb qr b2 sx sy ps layer) <
      countMatches tid b ∧
    (replaceLoop tid qr b).2 = countMatches tid b := by
  have hc := count_of_find_some tid b loc b2 h
  have hi := count_insert_qr tid qr b2 sx sy ps layer
  exact ⟨by omega, hi, by omega, replaceLoop_count tid qr b⟩

/-- Witness for C10: one iteration on a single-marker board consumes the
marker; the loop makes exactly one replacement. -/
theorem C10_witness :
    countMatches exId ([] : Board) + 1 =
      countMatches exId [Drawable.textbox exTb] ∧
    countMatches exId (insert_qr_to_pcb exImg ([] : Board) 0 0 1 F_SilkS) =
      countMatches exId ([] : Board) ∧
    countMatches exId (insert_qr_to_pcb exImg ([] : Board) 0 0 1 F_SilkS) <
      countMatches exId [Drawable.textbox exTb] ∧
    (replaceLoop exId exImg [Drawable.textbox exTb]).2 =
      countMatches exId [Drawable.textbox exTb] := by
  refine C10_loop_terminates exId exImg [Drawable.textbox exTb] ([] : Board)
    (45, 45, 10, 37) 0 0 1 F_SilkS ?_
  have h := find_split exId [] [] exTb (by simp) (by simp [exTb])
  simp only [List.nil_append] at h
  rw [h]
  norm_num [exTb, ToMM, F_SilkS]

/-- Geometry of a rectangle shape: (startX, startY, endX, endY). -/
def geomOf (s : PCB_SHAPE) : ℚ × ℚ × ℚ × ℚ :=
  (s.startX, s.startY, s.endX, s.endY)

/-- Geometries of the plain shapes of a drawable list, in order. -/
def shapeGeoms (l : List Drawable) : List (ℚ × ℚ × ℚ × ℚ) :=
  l.filterMap fun d =>
    match d with
    | Drawable.shape s => some (geomOf s)
    | Drawable.textbox _ => none

/-- Horizontal mirror of a rectangle about the vertical line at `axis`
(given in millimetres; geometry is in internal units). -/
def mirrorGeom (axis : ℚ) (g : ℚ × ℚ × ℚ × ℚ) : ℚ × ℚ × ℚ × ℚ :=
  (FromMM (2 * axis) - g.2.2.1, g.2.1, FromMM (2 * axis) - g.1, g.2.2.2)

/-- Reversing `range w` is the same as applying `w - 1 - x` pointwise. -/
theorem reverse_range (w : Nat) :
    (List.range w).reverse = (List.range w).map (fun x => w - 1 - x) := by
  conv_lhs => rw [List.range_eq_range']
  rw [List.reverse_range']
  simp

/-- A filterMap distributes over flatMap. -/
theorem filterMap_flatMap {α β γ : Type _} (l : List α) (f : α → List β)
    (g : β → Option γ) :
    (l.flatMap f).filterMap g = l.flatMap fun a => (f a).filterMap g := by
  induction l with
  | nil => rfl
  | cons a t ih => simp [List.flatMap_cons, List.filterMap_append, ih]

/-- Shape geometries distribute over flatMap. -/
theorem shapeGeoms_flatMap {α : Type _} (l : List α) (f : α → List Drawable) :
    shapeGeoms (l.flatMap f) = l.flatMap fun a => shapeGeoms (f a) :=
  filterMap_flatMap l f _

/-- Shape geometries of a list of freshly built shapes. -/
theorem shapeGeoms_map_shape {α : Type _} (l : List α) (f : α → PCB_SHAPE) :
    shapeGeoms (l.map fun a => Drawable.shape (f a)) =
      l.map fun a => geomOf (f a) := by
  induction l with
  | nil => rfl
  | cons a t ih =>
    simp only [List.map_cons, shapeGeoms, List.filterMap_cons] at ih ⊢
    rw [ih]

/-- Mapping a column-flip over a filtered range enumerates the flipped
filter in reverse order. -/
theorem map_filter_flip {β : Type _} (p q : Nat → Bool) (f : Nat → β)
    (w : Nat) (hq : ∀ x, x < w → q x = p (w - 1 - x)) :
    ((List.range w).filter p).map (fun x => f (w - 1 - x)) =
      (((List.range w).filter q).map f).reverse := by
  rw [← List.map_reverse, ← List.filter_reverse, reverse_range,
    List.filter_map, List.map_map]
  have hfil : (List.range w).filter (q ∘ fun x => w - 1 - x) =
      (List.range w).filter p := by
    apply List.filter_congr
    intro x hx
    rw [List.mem_range] at hx
    have h1 : q (w - 1 - x) = p (w - 1 - (w - 1 - x)) := hq _ (by omega)
    have h2 : w - 1 - (w - 1 - x) = x := by omega
    simp [Function.comp_def, h1, h2]
  rw [hfil]
  rfl

/-- Reading a pixel of the flipped bitmap reads the column-mirrored pixel
of the original bitmap. -/
theorem pixelAt_flip (img : QRImage) (hwf : img.WF) (x y : Nat)
    (hx : x < img.width) (hy : y < img.height) :
    pixelAt img.flipLR x y = pixelAt img (img.width - 1 - x) y := by
  have hy' : y < img.pixels.length := hy
  have hrow : (img.pixels.getD y []).length = img.width := by
    rw [List.getD_eq_getElem _ _ hy']
    exact hwf _ (List.getElem_mem hy')
  unfold pixelAt QRImage.flipLR
  have hmap : ((⟨img.pixels.map List.reverse⟩ : QRImage).pixels).getD y [] =
      (img.pixels.getD y []).reverse := by
    rw [List.getD_eq_getElem _ _ (by simpa using hy'),
      List.getD_eq_getElem _ _ hy', List.getElem_map]
  rw [hmap, List.getD_eq_getElem?_getD,
    List.getElem?_reverse (by rw [hrow]; exact hx),
    ← List.getD_eq_getElem?_getD, hrow]

/-- Mirroring the geometry of the rectangle of column x about the render
region's centre line gives the rectangle of column w - 1 - x. -/
theorem mirrorGeom_mkRect (sx sy ps : ℚ) (lB lF : Int) (x y w : Nat)
    (hx : x < w) :
    mirrorGeom (sx + (w : ℚ) * ps / 2) (geomOf (mkRect sx sy ps lF x y)) =
      geomOf (mkRect sx sy ps lB (w - 1 - x) y) := by
  unfold mirrorGeom geomOf mkRect FromMM
  have hc : ((w - 1 - x : Nat) : ℚ) = (w : ℚ) - 1 - (x : ℚ) := by
    have h1 : x + 1 ≤ w := hx
    push_cast [Nat.cast_sub (by omega : 1 + x ≤ w), Nat.sub_sub]
    ring
  rw [hc]
  simp only [Prod.mk.injEq]
  refine ⟨by ring, trivial, by ring, trivial⟩

/-- The shape geometries rendered from the flipped bitmap are a permutation
of the mirror image of the geometries rendered from the bitmap itself. -/
theorem renderPixels_flip_perm (img : QRImage) (sx sy ps : ℚ) (lB lF : Int)
    (hwf : img.WF) :
    (shapeGeoms (renderPixels img.flipLR sx sy ps lB)).Perm
      ((shapeGeoms (renderPixels img sx sy ps lF)).map
        (mirrorGeom (sx + (img.width : ℚ) * ps / 2))) := by
  unfold renderPixels
  rw [flipLR_height, flipLR_width, shapeGeoms_flatMap, shapeGeoms_flatMap,
    List.map_flatMap]
  apply List.Perm.flatMap_left
  intro y hy
  rw [List.mem_range] at hy
  rw [shapeGeoms_map_shape, shapeGeoms_map_shape, List.map_map]
  have hpoint : ∀ x ∈ (List.range img.width).filter
      (fun x => pixelAt img x y == 0),
      (mirrorGeom (sx + (img.width : ℚ) * ps / 2) ∘
        fun x => geomOf (mkRect sx sy ps lF x y)) x =
        geomOf (mkRect sx sy ps lB (img.width - 1 - x) y) := by
    intro x hxm
    rw [List.mem_filter, List.mem_range] at hxm
    exact mirrorGeom_mkRect sx sy ps lB lF x y img.width hxm.1
  rw [List.map_congr_left hpoint]
  rw [map_filter_flip (fun x => pixelAt img x y == 0)
    (fun x => pixelAt img.flipLR x y == 0)
    (fun x => geomOf (mkRect sx sy ps lB x y)) img.width
    (fun x hx => by
      show (pixelAt img.flipLR x y == 0) =
        (pixelAt img (img.width - 1 - x) y == 0)
      rw [pixelAt_flip img hwf x y hx hy])]
  exact (List.reverse_perm _).symm

/-- Claim C4: rendering on a layer of the fixed back-side set produces
exactly the rectangle set that is the horizontal mirror image, about the
rendered region's vertical centre line, of what rendering the same bitmap
at the same placement on a front-side layer produces; on the front-side
layer the bitmap is rendered unmirrored. -/
theorem C4_backside_mirror (img : QRImage) (b : Board) (sx sy ps : ℚ)
    (lB lF : Int) (hB : is_backside_layer lB = true)
    (hF : is_backside_layer lF = false) (hwf : img.WF) :
    (shapeGeoms ((insert_qr_to_pcb img b sx sy ps lB).drop b.length)).Perm
      ((shapeGeoms ((insert_qr_to_pcb img b sx sy ps lF).drop b.length)).map
        (mirrorGeom (sx + (img.width : ℚ) * ps / 2))) ∧
    insert_qr_to_pcb img b sx sy ps lF = b ++ renderPixels img sx sy ps lF := by
  unfold insert_qr_to_pcb
  simp only [hB, if_true, hF, Bool.false_eq_true, if_false]
  rw [List.drop_left, List.drop_left]
  exact ⟨renderPixels_flip_perm img sx sy ps lB lF hwf, trivial⟩

/-- Witness for C4: the 2 by 2 example bitmap rendered on back silkscreen
against front silkscreen at origin 0 with 1 mm pixels. -/
theorem C4_witness :
    (shapeGeoms ((insert_qr_to_pcb exImg ([] : Board) 0 0 1 B_SilkS).drop
        ([] : Board).length)).Perm
      ((shapeGeoms ((insert_qr_to_pcb exImg ([] : Board) 0 0 1 F_SilkS).drop
          ([] : Board).length)).map
        (mirrorGeom (0 + (exImg.width : ℚ) * 1 / 2))) ∧
    insert_qr_to_pcb exImg ([] : Board) 0 0 1 F_SilkS =
      [] ++ renderPixels exImg 0 0 1 F_SilkS :=
  C4_backside_mirror exImg ([] : Board) 0 0 1 B_SilkS F_SilkS (by decide)
    (by decide) (by unfold QRImage.WF; decide)

instance : Std.Antisymm (fun a b : ℚ => a ≤ b) :=
  ⟨fun h1 h2 => le_antisymm h1 h2⟩

/-- Minimum of a rational list: characterisation. -/
theorem rat_min?_eq_some_iff {a : ℚ} {xs : List ℚ} :
    xs.min? = some a ↔ a ∈ xs ∧ ∀ b ∈ xs, a ≤ b :=
  List.min?_eq_some_iff (fun a => le_refl a) (fun a b => min_choice a b)
    (fun _ _ _ => le_min_iff)

/-- Maximum of a rational list: characterisation. -/
theorem rat_max?_eq_some_iff {a : ℚ} {xs : List ℚ} :
    xs.max? = some a ↔ a ∈ xs ∧ ∀ b ∈ xs, b ≤ a :=
  List.max?_eq_some_iff (fun a => le_refl a) (fun a b => max_choice a b)
    (fun _ _ _ => max_le_iff)

/-- The bitmap has a black pixel in its first and last column and in its
first and last row.  Every QR symbol satisfies this: the finder patterns
occupy three corners of the symbol. -/
def CoversExtremes (img : QRImage) : Prop :=
  (∃ y, y < img.height ∧ pixelAt img 0 y = 0) ∧
  (∃ y, y < img.height ∧ pixelAt img (img.width - 1) y = 0) ∧
  (∃ x, x < img.width ∧ pixelAt img x 0 = 0) ∧
  (∃ x, x < img.width ∧ pixelAt img x (img.height - 1) = 0)

/-- Flipping left-right preserves coverage of the extreme rows/columns. -/
theorem flipLR_covers (img : QRImage) (hwf : img.WF) (hw : 0 < img.width)
    (hcov : CoversExtremes img) : CoversExtremes img.flipLR := by
  obtain ⟨⟨y0, hy0, hp0⟩, ⟨y1, hy1, hp1⟩, ⟨x0, hx0, hq0⟩, ⟨x1, hx1, hq1⟩⟩ := hcov
  have hh0 : 0 < img.height := by omega
  refine ⟨⟨y1, ?_, ?_⟩, ⟨y0, ?_, ?_⟩, ⟨img.width - 1 - x0, ?_, ?_⟩,
    ⟨img.width - 1 - x1, ?_, ?_⟩⟩
  · rw [flipLR_height]
    exact hy1
  · rw [pixelAt_flip img hwf 0 y1 hw hy1]
    simpa using hp1
  · rw [flipLR_height]
    exact hy0
  · rw [flipLR_width, pixelAt_flip img hwf (img.width - 1) y0 (by omega) hy0]
    simpa using hp0
  · rw [flipLR_width]
    omega
  · rw [pixelAt_flip img hwf (img.width - 1 - x0) 0 (by omega) hh0]
    have hx : img.width - 1 - (img.width - 1 - x0) = x0 := by omega
    rw [hx]
    exact hq0
  · rw [flipLR_width]
    omega
  · rw [flipLR_height,
      pixelAt_flip img hwf (img.width - 1 - x1) (img.height - 1) (by omega)
        (by omega)]
    have hx : img.width - 1 - (img.width - 1 - x1) = x1 := by omega
    rw [hx]
    exact hq1

/-- Unit conversion to internal units is monotone. -/
theorem FromMM_le_FromMM {a b : ℚ} (h : a ≤ b) : FromMM a ≤ FromMM b := by
  unfold FromMM
  have hpos : (0 : ℚ) < 1000000 := by norm_num
  exact (mul_le_mul_right hpos).mpr h

/-- Normal form of the rendered shape geometries as a double loop. -/
theorem shapeGeoms_renderPixels (img : QRImage) (sx sy ps : ℚ) (layer : Int) :
    shapeGeoms (renderPixels img sx sy ps layer) =
      (List.range img.height).flatMap fun y =>
        ((List.range img.width).filter fun x => pixelAt img x y == 0).map
          fun x => geomOf (mkRect sx sy ps layer x y) := by
  unfold renderPixels
  rw [shapeGeoms_flatMap]
  congr 1
  funext y
  rw [shapeGeoms_map_shape]

/-- Bounding box of the rendered rectangles: when the bitmap covers its
extreme rows and columns, the box spans exactly from the render origin to
origin plus bitmap size times pixel size. -/
theorem renderPixels_bbox (img : QRImage) (sx sy ps : ℚ) (layer : Int)
    (hps : 0 < ps) (hcov : CoversExtremes img)
    (hw : 0 < img.width) (hh : 0 < img.height) :
    ((shapeGeoms (renderPixels img sx sy ps layer)).map (fun g => g.1)).min?
        = some (FromMM sx) ∧
    ((shapeGeoms (renderPixels img sx sy ps layer)).map
        (fun g => g.2.2.1)).max? = some (FromMM (sx + (img.width : ℚ) * ps)) ∧
    ((shapeGeoms (renderPixels img sx sy ps layer)).map (fun g => g.2.1)).min?
        = some (FromMM sy) ∧
    ((shapeGeoms (renderPixels img sx sy ps layer)).map
        (fun g => g.2.2.2)).max? =
      some (FromMM (sy + (img.height : ℚ) * ps)) := by
  obtain ⟨⟨y0, hy0, hp0⟩, ⟨y1, hy1, hp1⟩, ⟨x0, hx0, hq0⟩, ⟨x1, hx1, hq1⟩⟩ := hcov
  rw [shapeGeoms_renderPixels]
  have hone : ((img.width - 1 : Nat) : ℚ) + 1 = (img.width : ℚ) := by
    rw [Nat.cast_sub hw]
    ring
  have honeh : ((img.height - 1 : Nat) : ℚ) + 1 = (img.height : ℚ) := by
    rw [Nat.cast_sub hh]
    ring
  refine ⟨?_, ?_, ?_, ?_⟩
  · apply rat_min?_eq_some_iff.mpr
    constructor
    · simp only [List.map_flatMap, List.map_map, List.mem_flatMap,
        List.mem_map, List.mem_filter, List.mem_range, Function.comp_def]
      refine ⟨y0, hy0, 0, ⟨hw, by simp [hp0]⟩, ?_⟩
      show (geomOf (mkRect sx sy ps layer 0 y0)).1 = FromMM sx
      unfold geomOf mkRect
      norm_num
    · intro v hv
      simp only [List.map_flatMap, List.map_map, List.mem_flatMap,
        List.mem_map, List.mem_filter, List.mem_range, Function.comp_def] at hv
      obtain ⟨y, hy, x, ⟨hxw, hpx⟩, hveq⟩ := hv
      rw [← hveq]
      show FromMM sx ≤ (geomOf (mkRect sx sy ps layer x y)).1
      unfold geomOf mkRect
      apply FromMM_le_FromMM
      have hxp : (0 : ℚ) ≤ (x : ℚ) * ps :=
        mul_nonneg (Nat.cast_nonneg x) (le_of_lt hps)
      linarith
  · apply rat_max?_eq_some_iff.mpr
    constructor
    · simp only [List.map_flatMap, List.map_map, List.mem_flatMap,
        List.mem_map, List.mem_filter, List.mem_range, Function.comp_def]
      refine ⟨y1, hy1, img.width - 1, ⟨by omega, by simp [hp1]⟩, ?_⟩
      show (geomOf (mkRect sx sy ps layer (img.width - 1) y1)).2.2.1 =
        FromMM (sx + (img.width : ℚ) * ps)
      unfold geomOf mkRect
      rw [hone]
    · intro v hv
      simp only [List.map_flatMap, List.map_map, List.mem_flatMap,
        List.mem_map, List.mem_filter, List.mem_range, Function.comp_def] at hv
      obtain ⟨y, hy, x, ⟨hxw, hpx⟩, hveq⟩ := hv
      rw [← hveq]
      show (geomOf (mkRect sx sy ps layer x y)).2.2.1 ≤
        FromMM (sx + (img.width : ℚ) * ps)
      unfold geomOf mkRect
      apply FromMM_le_FromMM
      have hcast : (x : ℚ) + 1 ≤ (img.width : ℚ) := by
        exact_mod_cast hxw
      have hmul : ((x : ℚ) + 1) * ps ≤ (img.width : ℚ) * ps :=
        mul_le_mul_of_nonneg_right hcast (le_of_lt hps)
      linarith
  · apply rat_min?_eq_some_iff.mpr
    constructor
    · simp only [List.map_flatMap, List.map_map, List.mem_flatMap,
        List.mem_map, List.mem_filter, List.mem_range, Function.comp_def]
      refine ⟨0, hh, x0, ⟨hx0, by simp [hq0]⟩, ?_⟩
      show (geomOf (mkRect sx sy ps layer x0 0)).2.1 = FromMM sy
      unfold geomOf mkRect
      norm_num
    · intro v hv
      simp only [List.map_flatMap, List.map_map, List.mem_flatMap,
        List.mem_map, List.mem_filter, List.mem_range, Function.comp_def] at hv
      obtain ⟨y, hy, x, ⟨hxw, hpx⟩, hveq⟩ := hv
      rw [← hveq]
      show FromMM sy ≤ (geomOf (mkRect sx sy ps layer x y)).2.1
      unfold geomOf mkRect
      apply FromMM_le_FromMM
      have hyp : (0 : ℚ) ≤ (y : ℚ) * ps :=
        mul_nonneg (Nat.cast_nonneg y) (le_of_lt hps)
      linarith
  · apply rat_max?_eq_some_iff.mpr
    constructor
    · simp only [List.map_flatMap, List.map_map, List.mem_flatMap,
        List.mem_map, List.mem_filter, List.mem_range, Function.comp_def]
      refine ⟨img.height - 1, by omega, x1, ⟨hx1, by simp [hq1]⟩, ?_⟩
      show (geomOf (mkRect sx sy ps layer x1 (img.height - 1))).2.2.2 =
        FromMM (sy + (img.height : ℚ) * ps)
      unfold geomOf mkRect
      rw [honeh]
    · intro v hv
      simp only [List.map_flatMap, List.map_map, List.mem_flatMap,
        List.mem_map, List.mem_filter, List.mem_range, Function.comp_def] at hv
      obtain ⟨y, hy, x, ⟨hxw, hpx⟩, hveq⟩ := hv
      rw [← hveq]
      show (geomOf (mkRect sx sy ps layer x y)).2.2.2 ≤
        FromMM (sy + (img.height : ℚ) * ps)
      unfold geomOf mkRect
      apply FromMM_le_FromMM
      have hcast : (y : ℚ) + 1 ≤ (img.height : ℚ) := by
        exact_mod_cast hy
      have hmul : ((y : ℚ) + 1) * ps ≤ (img.height : ℚ) * ps :=
        mul_le_mul_of_nonneg_right hcast (le_of_lt hps)
      linarith

/-- The pixel size the orchestrator computes: `width / qr_image.width`. -/
def mainPixelSize (msize : ℚ) (img : QRImage) : ℚ :=
  msize / (img.width : ℚ)

/-- The render origin the orchestrator computes for one axis:
`c - qr_image.width / 2 * pixel_size`. -/
def mainOrigin (c msize : ℚ) (img : QRImage) : ℚ :=
  c - (img.width : ℚ) / 2 * (msize / (img.width : ℚ))

/-- Claim C5: with `pixel_size = size / bitmap.width` and the top-left
origin the orchestrator computes, the rendered QR region is centred on the
marker's centre: the bounding box of all rendered rectangles runs from
`centre - size/2` to `centre + size/2` on both axes, so its centroid equals
the marker's centre exactly (hence within half a pixel unit).  The coverage
hypothesis holds for every QR bitmap (finder patterns sit in the corners). -/
theorem C5_centering (img : QRImage) (cx cy msize : ℚ) (layer : Int)
    (hwf : img.WF) (hsq : img.height = img.width) (hw : 0 < img.width)
    (hsz : 0 < msize) (hcov : CoversExtremes img) :
    ((shapeGeoms (renderPixels
          (if is_backside_layer layer then img.flipLR else img)
          (mainOrigin cx msize img) (mainOrigin cy msize img)
          (mainPixelSize msize img) layer)).map (fun g => g.1)).min? =
        some (FromMM (cx - msize / 2)) ∧
    ((shapeGeoms (renderPixels
          (if is_backside_layer layer then img.flipLR else img)
          (mainOrigin cx msize img) (mainOrigin cy msize img)
          (mainPixelSize msize img) layer)).map (fun g => g.2.2.1)).max? =
        some (FromMM (cx + msize / 2)) ∧
    ((shapeGeoms (renderPixels
          (if is_backside_layer layer then img.flipLR else img)
          (mainOrigin cx msize img) (mainOrigin cy msize img)
          (mainPixelSize msize img) layer)).map (fun g => g.2.1)).min? =
        some (FromMM (cy - msize / 2)) ∧
    ((shapeGeoms (renderPixels
          (if is_backside_layer layer then img.flipLR else img)
          (mainOrigin cx msize img) (mainOrigin cy msize img)
          (mainPixelSize msize img) layer)).map (fun g => g.2.2.2)).max? =
        some (FromMM (cy + msize / 2)) ∧
    ToMM ((FromMM (cx - msize / 2) + FromMM (cx + msize / 2)) / 2) = cx ∧
    ToMM ((FromMM (cy - msize / 2) + FromMM (cy + msize / 2)) / 2) = cy := by
  have hwQ : (0 : ℚ) < (img.width : ℚ) := by
    exact_mod_cast hw
  have hps : 0 < mainPixelSize msize img := div_pos hsz hwQ
  have hox : mainOrigin cx msize img = cx - msize / 2 := by
    unfold mainOrigin
    field_simp
    ring
  have hoy : mainOrigin cy msize img = cy - msize / 2 := by
    unfold mainOrigin
    field_simp
    ring
  have hox2 : mainOrigin cx msize img +
      (img.width : ℚ) * mainPixelSize msize img = cx + msize / 2 := by
    unfold mainOrigin mainPixelSize
    field_simp
    ring
  have hoy2 : mainOrigin cy msize img +
      (img.width : ℚ) * mainPixelSize msize img = cy + msize / 2 := by
    unfold mainOrigin mainPixelSize
    field_simp
    ring
  by_cases hb : is_backside_layer layer = true
  · simp only [hb, if_true]
    obtain ⟨h1, h2, h3, h4⟩ := renderPixels_bbox img.flipLR
      (mainOrigin cx msize img) (mainOrigin cy msize img)
      (mainPixelSize msize img) layer hps
      (flipLR_covers img hwf hw hcov)
      (by rw [flipLR_width]; exact hw)
      (by rw [flipLR_height]; omega)
    rw [flipLR_width] at h2
    rw [flipLR_height, hsq] at h4
    rw [h1, h2, h3, h4, hox2, hoy2, hox, hoy]
    refine ⟨rfl, rfl, rfl, rfl, ?_, ?_⟩
    · unfold ToMM FromMM
      ring
    · unfold ToMM FromMM
      ring
  · simp only [Bool.not_eq_true] at hb
    simp only [hb, Bool.false_eq_true, if_false]
    obtain ⟨h1, h2, h3, h4⟩ := renderPixels_bbox img
      (mainOrigin cx msize img) (mainOrigin cy msize img)
      (mainPixelSize msize img) layer hps hcov hw (by omega)
    rw [hsq] at h4
    rw [h1, h2, h3, h4, hox2, hoy2, hox, hoy]
    refine ⟨rfl, rfl, rfl, rfl, ?_, ?_⟩
    · unfold ToMM FromMM
      ring
    · unfold ToMM FromMM
      ring

/-- Witness for C5: the 2 by 2 example bitmap rendered for a 2 mm marker
centred at (10 mm, 10 mm) on front copper spans 9 mm to 11 mm on both axes
and its bounding-box centroid is the marker centre. -/
theorem C5_witness :
    ((shapeGeoms (renderPixels
          (if is_backside_layer F_Cu then exImg.flipLR else exImg)
          (mainOrigin 10 2 exImg) (mainOrigin 10 2 exImg)
          (mainPixelSize 2 exImg) F_Cu)).map (fun g => g.1)).min? =
        some (FromMM (10 - 2 / 2)) ∧
    ((shapeGeoms (renderPixels
          (if is_backside_layer F_Cu then exImg.flipLR else exImg)
          (mainOrigin 10 2 exImg) (mainOrigin 10 2 exImg)
          (mainPixelSize 2 exImg) F_Cu)).map (fun g => g.2.2.1)).max? =
        some (FromMM (10 + 2 / 2)) ∧
    ((shapeGeoms (renderPixels
          (if is_backside_layer F_Cu then exImg.flipLR else exImg)
          (mainOrigin 10 2 exImg) (mainOrigin 10 2 exImg)
          (mainPixelSize 2 exImg) F_Cu)).map (fun g => g.2.1)).min? =
        some (FromMM (10 - 2 / 2)) ∧
    ((shapeGeoms (renderPixels
          (if is_backside_layer F_Cu then exImg.flipLR else exImg)
          (mainOrigin 10 2 exImg) (mainOrigin 10 2 exImg)
          (mainPixelSize 2 exImg) F_Cu)).map (fun g => g.2.2.2)).max? =
        some (FromMM (10 + 2 / 2)) ∧
    ToMM ((FromMM (10 - 2 / 2) + FromMM (10 + 2 / 2)) / 2) = (10 : ℚ) ∧
    ToMM ((FromMM (10 - 2 / 2) + FromMM (10 + 2 / 2)) / 2) = (10 : ℚ) :=
  C5_centering exImg 10 10 2 F_Cu (by unfold QRImage.WF; decide) (by decide)
    (by decide) (by norm_num)
    ⟨⟨0, by decide, by decide⟩, ⟨1, by decide, by decide⟩,
     ⟨0, by decide, by decide⟩, ⟨1, by decide, by decide⟩⟩

end KQR
